import Mathlib

/-!
Verification of the credential/session lifecycle core of the repository
(the auth service: session store with atomic refresh rotation, password
hashing, access-token service, and the register facade).

The session store (`src/unnamed/part_001`) is embedded as a state machine
over an explicit relational state; the row-locking transaction of
`RotateRefresh` makes each store operation atomic, so concurrent executions
are modelled as arbitrary sequential interleavings of atomic operations.
Cryptographic primitives (sha256, argon2id, HMAC) are parameters of the
embedding.
-/

set_option maxHeartbeats 1000000

deriving instance DecidableEq for Except

namespace AuthCore

/-- Sentinel errors of the session store (`src/unnamed/part_001` lines 15-20)
together with the generic database failures (unique / foreign-key violations)
that the store surfaces as plain errors. -/
inductive StoreErr where
  | notFound
  | refreshInvalid
  | refreshRevoked
  | refreshExpired
  | uniqueViolation
  | fkViolation
deriving DecidableEq, Repr

/-- User row (struct `User` in `src/unnamed/part_001`); timestamps are
integers, ids are naturals (`gen_random_uuid()` is modelled by a fresh
counter). -/
structure User where
  id : Nat
  email : String
  passwordHash : String
  emailVerifiedAt : Option Int
  createdAt : Int
  updatedAt : Int
deriving DecidableEq, Repr

/-- `SessionMeta` (`src/unnamed/part_001`): optional audit metadata. The Go
`net.IP` is modelled as an optional string (the code stores
`meta.IP.String()`, or SQL NULL when the IP is nil). -/
structure SessionMeta where
  userAgent : String
  ip : Option String
deriving DecidableEq, Repr

/-- Session row (struct `Session` / the `sessions` table in
`src/unnamed/part_001`). `tokenHash` holds the sha256 digest bytes of the
opaque refresh token (`refresh_token_hash`). -/
structure Session where
  id : Nat
  userId : Nat
  tokenHash : List Nat
  createdAt : Int
  expiresAt : Int
  revokedAt : Option Int
  userAgent : Option String
  ip : Option String
  rotatedFrom : Option Nat
deriving DecidableEq, Repr

/-- The relational store: `users` and `sessions` tables plus the id
generator. -/
structure StoreState where
  users : List User
  sessions : List Session
  nextId : Nat
deriving DecidableEq, Repr

/-- The empty database. -/
def StoreState.init : StoreState := { users := [], sessions := [], nextId := 0 }

/-- `NULLIF($4, '')` applied to the user-agent column
(`src/unnamed/part_001` lines 122-126 and 219-223). -/
def nullIfEmpty (s : String) : Option String := if s = "" then none else some s

/-- `CreateUser` (`src/unnamed/part_001` lines 55-66): plain INSERT INTO
users; the UNIQUE constraint on `email` makes the insert fail when the email
is already taken. -/
def createUser (st : StoreState) (email passwordHash : String) (now : Int) :
    Except StoreErr User × StoreState :=
  if ∃ u ∈ st.users, u.email = email then (.error .uniqueViolation, st)
  else
    let u : User := { id := st.nextId, email := email, passwordHash := passwordHash,
                      emailVerifiedAt := none, createdAt := now, updatedAt := now }
    (.ok u, { st with users := st.users ++ [u], nextId := st.nextId + 1 })

/-- `CreateSession` (`src/unnamed/part_001` lines 109-131): INSERT INTO
sessions storing the digest of the refresh token, subject to the UNIQUE
constraint on `refresh_token_hash` and the foreign keys on `user_id` and
`rotated_from`. The Go guard `rotatedFrom != nil && *rotatedFrom != ""`
corresponds to `rotatedFrom` being `some`; `created_at` defaults to the
database clock `now`. `mkSession` is the inserted row. -/
def mkSession (nextId : Nat) (userId : Nat) (hash : List Nat) (expiresAt : Int)
    (meta : SessionMeta) (rotatedFrom : Option Nat) (now : Int) : Session :=
  { id := nextId, userId := userId, tokenHash := hash, createdAt := now,
    expiresAt := expiresAt, revokedAt := none,
    userAgent := nullIfEmpty meta.userAgent, ip := meta.ip,
    rotatedFrom := rotatedFrom }

/-- The INSERT of `CreateSession`, guarded by the table constraints. -/
def createSession (hashRefreshToken : String → List Nat) (st : StoreState)
    (userId : Nat) (refreshToken : String) (expiresAt : Int) (meta : SessionMeta)
    (rotatedFrom : Option Nat) (now : Int) :
    Except StoreErr Nat × StoreState :=
  let hash := hashRefreshToken refreshToken
  if ∃ s ∈ st.sessions, s.tokenHash = hash then (.error .uniqueViolation, st)
  else if ¬ ∃ u ∈ st.users, u.id = userId then (.error .fkViolation, st)
  else if ∃ rid ∈ rotatedFrom, ¬ ∃ s ∈ st.sessions, s.id = rid then
    (.error .fkViolation, st)
  else
    let sess : Session := mkSession st.nextId userId hash expiresAt meta rotatedFrom now
    (.ok st.nextId, { st with sessions := st.sessions ++ [sess], nextId := st.nextId + 1 })

/-- Row transformer of the conditional UPDATE in `RotateRefresh`
(`src/unnamed/part_001` lines 206-210): set `revoked_at = now` on the row
with the old session's id provided `revoked_at IS NULL`. -/
def rotUpd (old : Session) (now : Int) (s : Session) : Session :=
  if s.id = old.id ∧ s.revokedAt = none then { s with revokedAt := some now } else s

/-- Row constructed by the INSERT in `RotateRefresh`
(`src/unnamed/part_001` lines 219-223): the replacement session, carrying
`rotated_from = old.id`. -/
def rotNewSession (nextId : Nat) (old : Session) (newHash : List Nat)
    (newExpiresAt : Int) (meta : SessionMeta) (now : Int) : Session :=
  { id := nextId, userId := old.userId, tokenHash := newHash, createdAt := now,
    expiresAt := newExpiresAt, revokedAt := none,
    userAgent := nullIfEmpty meta.userAgent, ip := meta.ip,
    rotatedFrom := some old.id }

/-- Row transformer of the conditional UPDATE in `RevokeSessionByRefresh`
(`src/unnamed/part_001` lines 241-246): set `revoked_at = now` where the
digest matches and `revoked_at IS NULL`. -/
def revokeUpd (hash : List Nat) (now : Int) (s : Session) : Session :=
  if s.tokenHash = hash ∧ s.revokedAt = none then { s with revokedAt := some now } else s

/-- Row transformer of the UPDATE in `RevokeAll`
(`src/unnamed/part_001` lines 256-263): set `revoked_at = now` on the
user's rows where `revoked_at IS NULL`. -/
def revokeAllUpd (userId : Nat) (now : Int) (s : Session) : Session :=
  if s.userId = userId ∧ s.revokedAt = none then { s with revokedAt := some now } else s

/-- `RotateRefresh` (`src/unnamed/part_001` lines 168-237): the transactional
rotation. The SELECT ... FOR UPDATE serialises transactions touching the old
row, so the whole transaction is one atomic step; every error path returns
the unchanged pre-state (the deferred `tx.Rollback`), and only the final
commit publishes the revoke+insert pair. The steps mirror the source: locate
the row by digest (`ErrRefreshInvalid` when absent), check `revoked_at`
(`ErrRefreshRevoked`), check `expires_at.After(now)` (`ErrRefreshExpired`),
conditionally revoke the old row, insert the new row with `rotated_from`
(UNIQUE constraint on the digest, FK on `user_id`), fetch the owning user
(`ErrRefreshInvalid` on failure), commit. -/
def rotateRefresh (hashRefreshToken : String → List Nat) (st : StoreState)
    (oldRefreshToken newRefreshToken : String) (newExpiresAt : Int)
    (meta : SessionMeta) (now : Int) :
    Except StoreErr (Nat × User) × StoreState :=
  let oldHash := hashRefreshToken oldRefreshToken
  let newHash := hashRefreshToken newRefreshToken
  match st.sessions.find? (fun s => decide (s.tokenHash = oldHash)) with
  | none => (.error .refreshInvalid, st)
  | some old =>
    if old.revokedAt.isSome then (.error .refreshRevoked, st)
    else if ¬ now < old.expiresAt then (.error .refreshExpired, st)
    else
      let revoked := st.sessions.map (rotUpd old now)
      if ∃ s ∈ revoked, s.tokenHash = newHash then (.error .uniqueViolation, st)
      else if ¬ ∃ u ∈ st.users, u.id = old.userId then (.error .fkViolation, st)
      else
        let sess : Session := rotNewSession st.nextId old newHash newExpiresAt meta now
        match st.users.find? (fun u => decide (u.id = old.userId)) with
        | none => (.error .refreshInvalid, st)
        | some u =>
          (.ok (st.nextId, u),
           { st with sessions := revoked ++ [sess], nextId := st.nextId + 1 })

/-- `RevokeSessionByRefresh` (`src/unnamed/part_001` lines 239-254): a single
conditional UPDATE setting `revoked_at` where the digest matches and
`revoked_at IS NULL`; `ErrRefreshInvalid` exactly when no row was affected.
Note the WHERE clause does not mention `expires_at`. -/
def revokeSessionByRefresh (hashRefreshToken : String → List Nat)
    (st : StoreState) (refreshToken : String) (now : Int) :
    Except StoreErr Unit × StoreState :=
  let hash := hashRefreshToken refreshToken
  let affected := st.sessions.countP (fun s =>
    decide (s.tokenHash = hash ∧ s.revokedAt = none))
  let updated := st.sessions.map (revokeUpd hash now)
  if affected = 0 then (.error .refreshInvalid, st)
  else (.ok (), { st with sessions := updated })

/-- `RevokeAll` (`src/unnamed/part_001` lines 256-263): bulk conditional
UPDATE of every unrevoked session of a user; unconditionally succeeds. -/
def revokeAll (st : StoreState) (userId : Nat) (now : Int) :
    Except StoreErr Unit × StoreState :=
  let updated := st.sessions.map (revokeAllUpd userId now)
  (.ok (), { st with sessions := updated })

/-- K concurrent `RotateRefresh` calls against the same old secret. Each
call is one atomic transaction (serialised by the row lock), so a concurrent
execution is a sequential run of the calls in some order; each list entry is
one caller's (new secret, new expiry, clock reading). -/
def rotateBatch (f : String → List Nat) (meta : SessionMeta) (st : StoreState)
    (oldTok : String) : List (String × Int × Int) →
    List (Except StoreErr (Nat × User)) × StoreState
  | [] => ([], st)
  | c :: rest =>
    let r1 := rotateRefresh f st oldTok c.1 c.2.1 meta c.2.2
    let rr := rotateBatch f meta r1.2 oldTok rest
    (r1.1 :: rr.1, rr.2)

/-- The mutating store operations, for reasoning about arbitrary sequences
of calls (the read-only `ValidateRefresh` does not change state). -/
inductive Op where
  | createUser (email passwordHash : String) (now : Int)
  | createSession (userId : Nat) (tok : String) (expiresAt : Int)
      (meta : SessionMeta) (rotatedFrom : Option Nat) (now : Int)
  | rotateRefresh (oldTok newTok : String) (newExpiresAt : Int)
      (meta : SessionMeta) (now : Int)
  | revokeSessionByRefresh (tok : String) (now : Int)
  | revokeAll (userId : Nat) (now : Int)

/-- State reached after one store operation (the returned value is
discarded). -/
def applyOp (hashRefreshToken : String → List Nat) (st : StoreState) : Op → StoreState
  | .createUser email pw now => (createUser st email pw now).2
  | .createSession uid tok exp meta rf now =>
      (createSession hashRefreshToken st uid tok exp meta rf now).2
  | .rotateRefresh oldTok newTok exp meta now =>
      (rotateRefresh hashRefreshToken st oldTok newTok exp meta now).2
  | .revokeSessionByRefresh tok now =>
      (revokeSessionByRefresh hashRefreshToken st tok now).2
  | .revokeAll uid now => (revokeAll st uid now).2

/-- State reached after a sequence of store operations. -/
def applyOps (hashRefreshToken : String → List Nat) (st : StoreState) :
    List Op → StoreState
  | [] => st
  | op :: rest => applyOps hashRefreshToken (applyOp hashRefreshToken st op) rest

/-- Row-level preservation between two snapshots of the sessions table: no
row disappears, ids keep their position, and a row's `revoked_at` is either
untouched or was previously unset (write-once revocation). -/
def rowsPreserved (pre post : List Session) : Prop :=
  pre.length ≤ post.length ∧
  ∀ i : Fin pre.length, ∀ h : (i : Nat) < post.length,
    (post.get ⟨i, h⟩).id = (pre.get i).id ∧
    ((post.get ⟨i, h⟩).revokedAt = (pre.get i).revokedAt ∨ (pre.get i).revokedAt = none)

/-- Shape of the conditional revocation UPDATEs: a row transformer that
keeps every column except possibly `revoked_at`, touches `revoked_at` only
when it is unset, and fixes already-revoked rows. -/
def revokeLike (g : Session → Session) : Prop :=
  ∀ s, (g s).id = s.id ∧ (g s).userId = s.userId ∧ (g s).tokenHash = s.tokenHash ∧
    (g s).expiresAt = s.expiresAt ∧ (g s).rotatedFrom = s.rotatedFrom ∧
    ((g s).revokedAt = s.revokedAt ∨ (s.revokedAt = none ∧ (g s).revokedAt.isSome)) ∧
    (s.revokedAt.isSome → g s = s)

/-- Digest uniqueness across the sessions table — the UNIQUE constraint on
`refresh_token_hash`. -/
def hashUnique (st : StoreState) : Prop :=
  st.sessions.Pairwise (fun a b => a.tokenHash ≠ b.tokenHash)

/-- Some (necessarily unique, by `hashUnique`) session row with the given
digest is revoked. -/
def revokedForHash (st : StoreState) (h : List Nat) : Prop :=
  ∃ s ∈ st.sessions, s.tokenHash = h ∧ s.revokedAt.isSome

/-- Lineage invariant of the spec: a `rotated_from` back-reference always
points at a revoked row. -/
def rotatedFromRevoked (st : StoreState) : Prop :=
  ∀ s ∈ st.sessions, ∀ rid ∈ s.rotatedFrom,
    ∃ p ∈ st.sessions, p.id = rid ∧ p.revokedAt.isSome

/-- Operations as the facade issues them: `CreateSession` is only ever
called without a `rotated_from` back-reference (the Login path); rows with
`rotated_from` are produced solely inside `RotateRefresh`. -/
def loginStyle : Op → Prop
  | .createSession _ _ _ _ rf _ => rf = none
  | _ => True

instance : (op : Op) → Decidable (loginStyle op)
  | .createUser .. => .isTrue trivial
  | .createSession _ _ _ _ rf _ => inferInstanceAs (Decidable (rf = none))
  | .rotateRefresh .. => .isTrue trivial
  | .revokeSessionByRefresh .. => .isTrue trivial
  | .revokeAll .. => .isTrue trivial

-- Concrete instantiations used to witness the theorems: an (injective)
-- stand-in for the sha256 digest and a few small database states.

/-- Concrete stand-in for `HashRefreshToken` (sha256) used in witness
instantiations: the code points of the token. -/
def demoHash (s : String) : List Nat := s.data.map Char.toNat

/-- Empty audit metadata. -/
def demoMeta : SessionMeta := { userAgent := "", ip := none }

/-- A registered user. -/
def demoUser : User :=
  { id := 0, email := "a@b.com", passwordHash := "h", emailVerifiedAt := none,
    createdAt := 0, updatedAt := 0 }

/-- An active session for the secret "old" expiring at time 100. -/
def demoSession : Session :=
  { id := 1, userId := 0, tokenHash := demoHash "old", createdAt := 0,
    expiresAt := 100, revokedAt := none, userAgent := none, ip := none,
    rotatedFrom := none }

/-- Store with one user and one active session for secret "old". -/
def demoState : StoreState :=
  { users := [demoUser], sessions := [demoSession], nextId := 2 }

/-- The session for "old", already revoked (and also past expiry, to show
revocation is checked before expiry). -/
def demoRevokedSession : Session :=
  { demoSession with revokedAt := some 3, expiresAt := -10 }

/-- Store whose only session for "old" is revoked. -/
def demoRevokedState : StoreState :=
  { users := [demoUser], sessions := [demoRevokedSession], nextId := 2 }

/-- The session for "old", expired (expires_at in the past) but unrevoked. -/
def demoExpiredSession : Session := { demoSession with expiresAt := -5 }

/-- Store whose only session for "old" is expired but unrevoked. -/
def demoExpiredState : StoreState :=
  { users := [demoUser], sessions := [demoExpiredSession], nextId := 2 }

-- Register's uniqueness-conflict mapping
-- (src/internal/services/auth/server/server.go lines 71-79).

/-- Kind of a driver-level failure as pgx reports it: Postgres attaches a
typed SQLSTATE code to every error (`23505` for a unique violation), which
is the typed conflict signal available to callers. -/
inductive PgErrKind where
  | uniqueViolation
  | otherFault
deriving DecidableEq, Repr

/-- A driver error: its typed kind plus the rendered message text returned
by `err.Error()`. -/
structure PgError where
  kind : PgErrKind
  msg : String
deriving DecidableEq, Repr

/-- Externally visible outcome of `Register` when `CreateUser` fails:
`codes.AlreadyExists` or `codes.Internal`. -/
inductive RegisterOutcome where
  | alreadyExists
  | internalError
deriving DecidableEq, Repr

/-- Whether `pat` is a leading segment of `l` (helper of `containsSub`). -/
def isPrefOf : List Char → List Char → Bool
  | [], _ => true
  | _ :: _, [] => false
  | a :: xs, b :: ys => a = b && isPrefOf xs ys

/-- `strings.Contains`: does `pat` occur inside `l`? -/
def containsSub (pat : List Char) : List Char → Bool
  | [] => isPrefOf pat []
  | c :: rest => isPrefOf pat (c :: rest) || containsSub pat rest

/-- `strings.ToLower` restricted to the ASCII range the compared needles
use. -/
def lowerChars (s : String) : List Char := s.data.map Char.toLower

/-- Conflict mapping of `Server.Register`
(`src/internal/services/auth/server/server.go` lines 71-79): when
`CreateUser` fails, the code inspects only the lowercased message text for
the substrings "unique" or "duplicate" to decide between already-exists and
internal. -/
def registerCreateUserErrOutcome (err : PgError) : RegisterOutcome :=
  if containsSub "unique".data (lowerChars err.msg) ||
      containsSub "duplicate".data (lowerChars err.msg) then .alreadyExists
  else .internalError

/-- Modelled from the spec: the typed-signal detection the spec prescribes
(`Ok | Conflict | Other(detail)`) — already-exists exactly on the typed
uniqueness-conflict variant, never looking at driver message text. -/
def typedConflictOutcome (err : PgError) : RegisterOutcome :=
  match err.kind with
  | .uniqueViolation => .alreadyExists
  | .otherFault => .internalError

-- Access-token service (`src/unnamed/part_006`, package authjwt).

/-- Claims carried by the service's tokens (struct `Claims`: `Email` plus
the `jwt.RegisteredClaims` fields the service mints and checks). -/
structure Claims where
  email : String
  issuer : String
  subject : String
  issuedAt : Option Int
  expiresAt : Option Int
  jwtId : Option String
deriving DecidableEq, Repr

/-- A decoded JWT on the wire: header algorithm, payload claims, and the
signature bytes. A wire string that fails JWT decoding is modelled as
`none` at the call sites. -/
structure JwtToken where
  alg : String
  claims : Claims
  sig : List Nat
deriving DecidableEq, Repr

/-- `authjwt.Service` (`src/unnamed/part_006` lines 15-23): HMAC secret,
configured issuer, and a TTL. -/
structure JwtService where
  secret : List Nat
  issuer : String
  ttl : Int
deriving DecidableEq, Repr

/-- The single sentinel `ErrInvalidToken`
(`src/unnamed/part_006` lines 11-13). -/
inductive AuthJwtErr where
  | invalidToken
deriving DecidableEq, Repr

/-- Verification pipeline of `jwt.ParseWithClaims` (golang-jwt/jwt v5) as
the service invokes it: decode (a `none` input is a decoding failure), check
the header algorithm against `WithValidMethods`, obtain the key from the
keyfunc, verify the signature with the MAC, then validate the registered
claims — `exp`, when present, must be strictly in the future and `iat`, when
present, must not be in the future. `mac` abstracts HMAC-SHA256 over the
signing input. -/
def parseWithClaims (mac : List Nat → String → Claims → List Nat)
    (keyfunc : JwtToken → Except Unit (List Nat)) (validMethods : List String)
    (tok? : Option JwtToken) (now : Int) : Except Unit Claims :=
  match tok? with
  | none => .error ()
  | some tok =>
    if ¬ tok.alg ∈ validMethods then .error ()
    else
      match keyfunc tok with
      | .error _ => .error ()
      | .ok key =>
        if tok.sig ≠ mac key tok.alg tok.claims then .error ()
        else if ∃ e ∈ tok.claims.expiresAt, ¬ now < e then .error ()
        else if ∃ i ∈ tok.claims.issuedAt, now < i then .error ()
        else .ok tok.claims

/-- `Service.Parse` (`src/unnamed/part_006` lines 77-96): parse with the
keyfunc that insists on HS256 and returns the configured secret, restricted
to valid method HS256; any library failure collapses to `ErrInvalidToken`,
and finally the issuer must equal the configured issuer. -/
def JwtService.parse (mac : List Nat → String → Claims → List Nat)
    (svc : JwtService) (tok? : Option JwtToken) (now : Int) :
    Except AuthJwtErr Claims :=
  match parseWithClaims mac
      (fun t => if t.alg = "HS256" then .ok svc.secret else .error ())
      ["HS256"] tok? now with
  | .error _ => .error .invalidToken
  | .ok claims =>
    if claims.issuer ≠ svc.issuer then .error .invalidToken
    else .ok claims

/-- `Service.NewAccessToken` (`src/unnamed/part_006` lines 30-50): mint an
HS256 token with issuer, subject, issued-at `now` and expiry `now + ttl`. -/
def JwtService.newAccessToken (mac : List Nat → String → Claims → List Nat)
    (svc : JwtService) (userID email : String) (ttl : Int) (now : Int) :
    JwtToken × Int :=
  let exp := now + ttl
  let claims : Claims :=
    { email := email, issuer := svc.issuer, subject := userID,
      issuedAt := some now, expiresAt := some exp, jwtId := none }
  ({ alg := "HS256", claims := claims, sig := mac svc.secret "HS256" claims }, exp)

/-- A concrete MAC stand-in for witness instantiations. -/
def demoMac (key : List Nat) (alg : String) (claims : Claims) : List Nat :=
  key ++ alg.data.map Char.toNat ++ claims.issuer.data.map Char.toNat

/-- A concrete token service for witness instantiations. -/
def demoJwtService : JwtService := { secret := [1, 2, 3], issuer := "issuer", ttl := 120 }

/-- A token minted by the demo service at time 0 with TTL 120. -/
def demoAccessToken : JwtToken :=
  (JwtService.newAccessToken demoMac demoJwtService "user-123" "u@example.com" 120 0).1

-- Password hashing (src/internal/services/auth/password/password.go).
-- Bytes are naturals < 256; a plaintext password is its []byte form.
-- argon2.IDKey is a parameter `idKey` of the embedding
-- (password, salt, time, memory, threads, keyLen → derived key).

namespace Password

/-- Cost constants of the module
(`src/internal/services/auth/password/password.go` lines 20-31). -/
def argon2Version : Nat := 19

def memoryKiB : Nat := 64 * 1024

def timeCost : Nat := 3

def threads : Nat := 2

def keyLen : Nat := 32

def saltLen : Nat := 16

/-- The module's error values plus the empty-password failure of `Hash`. -/
inductive PasswordErr where
  | emptyPassword
  | invalidHash
  | mismatch
deriving DecidableEq, Repr

/-- Character of the standard base64 alphabet at index `n`
(A-Z, a-z, 0-9, +, /). -/
def sextetChar (n : Nat) : Char :=
  if n < 26 then Char.ofNat (65 + n)
  else if n < 52 then Char.ofNat (97 + (n - 26))
  else if n < 62 then Char.ofNat (48 + (n - 52))
  else if n = 62 then Char.ofNat 43
  else Char.ofNat 47

/-- Index of a character in the standard base64 alphabet. -/
def charSextet (c : Char) : Option Nat :=
  if 65 ≤ c.toNat ∧ c.toNat ≤ 90 then some (c.toNat - 65)
  else if 97 ≤ c.toNat ∧ c.toNat ≤ 122 then some (c.toNat - 97 + 26)
  else if 48 ≤ c.toNat ∧ c.toNat ≤ 57 then some (c.toNat - 48 + 52)
  else if c.toNat = 43 then some 62
  else if c.toNat = 47 then some 63
  else none

/-- `base64.RawStdEncoding.EncodeToString`: unpadded standard base64. -/
def b64encode : List Nat → List Char
  | a :: b :: c :: rest =>
    sextetChar (a / 4) :: sextetChar ((a % 4) * 16 + b / 16) ::
      sextetChar ((b % 16) * 4 + c / 64) :: sextetChar (c % 64) :: b64encode rest
  | [a, b] => [sextetChar (a / 4), sextetChar ((a % 4) * 16 + b / 16),
      sextetChar ((b % 16) * 4)]
  | [a] => [sextetChar (a / 4), sextetChar ((a % 4) * 16)]
  | [] => []

/-- `base64.RawStdEncoding.DecodeString`: unpadded standard base64 decoding;
fails on characters outside the alphabet or a leftover length of 1. -/
def b64decodeChars : List Char → Option (List Nat)
  | [] => some []
  | [_] => none
  | [c1, c2] =>
    match charSextet c1, charSextet c2 with
    | some v1, some v2 => some [v1 * 4 + v2 / 16]
    | _, _ => none
  | [c1, c2, c3] =>
    match charSextet c1, charSextet c2, charSextet c3 with
    | some v1, some v2, some v3 => some [v1 * 4 + v2 / 16, (v2 % 16) * 16 + v3 / 4]
    | _, _, _ => none
  | c1 :: c2 :: c3 :: c4 :: rest =>
    match charSextet c1, charSextet c2, charSextet c3, charSextet c4,
        b64decodeChars rest with
    | some v1, some v2, some v3, some v4, some ds =>
      some ((v1 * 4 + v2 / 16) :: ((v2 % 16) * 16 + v3 / 4) :: ((v3 % 4) * 64 + v4) :: ds)
    | _, _, _, _, _ => none

/-- `strings.Split(encoded, "$")`. -/
def splitD : List Char → List (List Char)
  | [] => [[]]
  | c :: rest =>
    if c = '$' then [] :: splitD rest
    else
      match splitD rest with
      | [] => [[c]]
      | f :: r => (c :: f) :: r

/-- Decimal digits of `n` (`fmt.Sprintf` %d for the nonnegative cost
constants), via enough fuel for the division chain. -/
def natDigitsAux : Nat → Nat → List Char → List Char
  | 0, _, acc => acc
  | fuel + 1, n, acc =>
    if n < 10 then Char.ofNat (48 + n) :: acc
    else natDigitsAux fuel (n / 10) (Char.ofNat (48 + n % 10) :: acc)

def natDigits (n : Nat) : List Char := natDigitsAux (n + 1) n []

/-- Longest leading run of decimal digits and the remainder. -/
def takeDigits : List Char → List Char × List Char
  | [] => ([], [])
  | c :: rest =>
    if 48 ≤ c.toNat ∧ c.toNat ≤ 57 then
      let dr := takeDigits rest
      (c :: dr.1, dr.2)
    else ([], c :: rest)

def digitsToNat (l : List Char) : Nat :=
  l.foldl (fun acc c => acc * 10 + (c.toNat - 48)) 0

/-- The `%d` verb of `fmt.Sscanf`: an optional minus sign followed by at
least one digit; trailing input is left unconsumed (Sscanf does not require
consuming the whole string). -/
def scanInt : List Char → Option (Int × List Char)
  | '-' :: rest =>
    let dr := takeDigits rest
    if dr.1 = [] then none else some (-(digitsToNat dr.1 : Int), dr.2)
  | l =>
    let dr := takeDigits l
    if dr.1 = [] then none else some ((digitsToNat dr.1 : Int), dr.2)

/-- `fmt.Sscanf(field, "v=%d", &version)`. -/
def scanVersion : List Char → Option Int
  | 'v' :: '=' :: rest => (scanInt rest).map (·.1)
  | _ => none

/-- `fmt.Sscanf(field, "m=%d,t=%d,p=%d", &m, &t, &p)`. -/
def scanParams : List Char → Option (Int × Int × Int)
  | 'm' :: '=' :: rest =>
    match scanInt rest with
    | none => none
    | some (m, rest1) =>
      match rest1 with
      | ',' :: 't' :: '=' :: rest2 =>
        match scanInt rest2 with
        | none => none
        | some (t, rest3) =>
          match rest3 with
          | ',' :: 'p' :: '=' :: rest4 => (scanInt rest4).map (fun pr => (m, t, pr.1))
          | _ => none
      | _ => none
  | _ => none

/-- Go integer conversion `uint32(i)` (wraps). -/
def intToUInt32 (i : Int) : Nat := (i % 4294967296).toNat

/-- Go integer conversion `uint8(i)` (wraps). -/
def intToUInt8 (i : Int) : Nat := (i % 256).toNat

/-- The parsed PHC fields (struct `parsed`,
`src/internal/services/auth/password/password.go` lines 72-78). -/
structure ParsedHash where
  memoryKiB : Nat
  timeCost : Nat
  threads : Nat
  salt : List Nat
  hash : List Nat
deriving DecidableEq, Repr

/-- Fields joined by the `$` separator (the shape `fmt.Sprintf` produces
with the `$`-delimited format string). -/
def joinDollar : List (List Char) → List Char
  | [] => []
  | [x] => x
  | x :: rest => x ++ '$' :: joinDollar rest

/-- The PHC-format string `$argon2id$v=19$m=65536,t=3,p=2$<salt>$<hash>`
built by `Hash` (lines 50-55). -/
def hashEncoded (idKey : List Nat → List Nat → Nat → Nat → Nat → Nat → List Nat)
    (plaintext salt : List Nat) : List Char :=
  let hash := idKey plaintext salt timeCost memoryKiB threads keyLen
  '$' :: joinDollar ["argon2id".data,
    'v' :: '=' :: natDigits argon2Version,
    'm' :: '=' :: natDigits memoryKiB ++
      ',' :: 't' :: '=' :: natDigits timeCost ++
      ',' :: 'p' :: '=' :: natDigits threads,
    b64encode salt, b64encode hash]

/-- `Hash` (lines 38-57): reject the empty password, then derive the key
from the freshly random `salt` (the RNG output is the `salt` argument) and
produce the self-describing encoding. -/
def Hash (idKey : List Nat → List Nat → Nat → Nat → Nat → Nat → List Nat)
    (plaintext salt : List Nat) : Except PasswordErr (List Char) :=
  if plaintext = [] then .error .emptyPassword
  else .ok (hashEncoded idKey plaintext salt)

/-- `parse` (lines 80-115): split on `$`, expect six fields with
`fields[1] = "argon2id"`, scan the version (must be 19) and the cost
parameters, base64-decode salt (≥ 8 bytes) and digest (≥ 16 bytes); every
failure is `ErrInvalidHash` (modelled as `none`). -/
def parse (encoded : List Char) : Option ParsedHash :=
  match splitD encoded with
  | [_, f1, f2, f3, f4, f5] =>
    if f1 ≠ "argon2id".data then none
    else
      match scanVersion f2 with
      | none => none
      | some v =>
        if v ≠ (argon2Version : Int) then none
        else
          match scanParams f3 with
          | none => none
          | some (m, t, p) =>
            match b64decodeChars f4 with
            | none => none
            | some salt =>
              if salt.length < 8 then none
              else
                match b64decodeChars f5 with
                | none => none
                | some hash =>
                  if hash.length < 16 then none
                  else some (ParsedHash.mk (intToUInt32 m) (intToUInt32 t)
                    (intToUInt8 p) salt hash)
  | _ => none

/-- `subtle.ConstantTimeCompare`: 1 exactly when the byte slices have equal
length and contents, else 0. -/
def constantTimeCompare (a b : List Nat) : Nat := if a = b then 1 else 0

/-- `Verify` (lines 59-70): parse the encoding (failure is
`ErrInvalidHash`), recompute the key with the embedded parameters and the
stored digest's length, and compare in constant time; inequality is
`ErrMismatch`. -/
def Verify (idKey : List Nat → List Nat → Nat → Nat → Nat → Nat → List Nat)
    (plaintext : List Nat) (encoded : List Char) : Except PasswordErr Unit :=
  match parse encoded with
  | none => .error .invalidHash
  | some p =>
    let computed := idKey plaintext p.salt p.timeCost p.memoryKiB p.threads p.hash.length
    if constantTimeCompare computed p.hash ≠ 1 then .error .mismatch
    else .ok ()

/-- Concrete argon2id stand-in for witness instantiations: `keyLen` copies
of a byte derived from password and salt. -/
def demoIdKey (pw salt : List Nat) (t m th kl : Nat) : List Nat :=
  List.replicate kl ((pw.sum + salt.sum + t + m + th) % 256)

end Password

-- ------------------------------------------------------------------
-- Theorems
-- ------------------------------------------------------------------

/-- C2. Whenever `RotateRefresh` returns an error — any of the refresh
sentinels or an unexpected database fault at any step — the transaction is
rolled back: the resulting store (sessions and users alike) is exactly the
pre-call state. Commit (the `.ok` branch) is the only path that changes the
state. -/
theorem rotateRefresh_error_rolls_back (f : String → List Nat) (st : StoreState)
    (oldTok newTok : String) (exp : Int) (meta : SessionMeta) (now : Int) (e : StoreErr)
    (h : (rotateRefresh f st oldTok newTok exp meta now).1 = .error e) :
    (rotateRefresh f st oldTok newTok exp meta now).2 = st := by
  revert h
  simp only [rotateRefresh]
  repeat' split
  all_goals intro h
  all_goals try rfl
  all_goals simp at h

/-- Witness for C2 at a concrete input: rotating a secret with no matching
row fails `ErrRefreshInvalid` and leaves the store untouched. -/
theorem rotateRefresh_error_rolls_back_witness :
    (rotateRefresh demoHash demoState "nope" "new" 200 demoMeta 0).1 =
      .error .refreshInvalid ∧
    (rotateRefresh demoHash demoState "nope" "new" 200 demoMeta 0).2 = demoState :=
  ⟨by decide,
   rotateRefresh_error_rolls_back demoHash demoState "nope" "new" 200 demoMeta 0
     .refreshInvalid (by decide)⟩


theorem revokeLike_id : revokeLike id :=
  fun _ => ⟨rfl, rfl, rfl, rfl, rfl, Or.inl rfl, fun _ => rfl⟩

theorem revokeLike_rotUpd (old : Session) (now : Int) : revokeLike (rotUpd old now) := by
  intro s
  unfold rotUpd
  split
  · rename_i hc
    refine ⟨rfl, rfl, rfl, rfl, rfl, Or.inr ⟨hc.2, rfl⟩, ?_⟩
    intro hs; rw [hc.2] at hs; simp at hs
  · exact ⟨rfl, rfl, rfl, rfl, rfl, Or.inl rfl, fun _ => rfl⟩

theorem revokeLike_revokeUpd (h : List Nat) (now : Int) : revokeLike (revokeUpd h now) := by
  intro s
  unfold revokeUpd
  split
  · rename_i hc
    refine ⟨rfl, rfl, rfl, rfl, rfl, Or.inr ⟨hc.2, rfl⟩, ?_⟩
    intro hs; rw [hc.2] at hs; simp at hs
  · exact ⟨rfl, rfl, rfl, rfl, rfl, Or.inl rfl, fun _ => rfl⟩

theorem revokeLike_revokeAllUpd (uid : Nat) (now : Int) :
    revokeLike (revokeAllUpd uid now) := by
  intro s
  unfold revokeAllUpd
  split
  · rename_i hc
    refine ⟨rfl, rfl, rfl, rfl, rfl, Or.inr ⟨hc.2, rfl⟩, ?_⟩
    intro hs; rw [hc.2] at hs; simp at hs
  · exact ⟨rfl, rfl, rfl, rfl, rfl, Or.inl rfl, fun _ => rfl⟩

theorem rowsPreserved_of_revokeLike (l t : List Session) (g : Session → Session)
    (hg : revokeLike g) : rowsPreserved l (l.map g ++ t) := by
  constructor
  · simp only [List.length_append, List.length_map]
    omega
  · intro i h
    have hlt : (i : Nat) < (l.map g).length := by
      simp only [List.length_map]
      exact i.isLt
    have hget : (l.map g ++ t).get ⟨i, h⟩ = g (l.get i) := by
      rw [List.get_eq_getElem, List.getElem_append_left hlt, List.getElem_map]
      rfl
    rw [hget]
    obtain ⟨hid, _, _, _, _, hrev, _⟩ := hg (l.get i)
    refine ⟨hid, ?_⟩
    rcases hrev with h1 | h2
    · exact Or.inl h1
    · exact Or.inr h2.1

theorem rowsPreserved_trans {a b c : List Session}
    (h1 : rowsPreserved a b) (h2 : rowsPreserved b c) : rowsPreserved a c := by
  obtain ⟨hl1, hp1⟩ := h1
  obtain ⟨hl2, hp2⟩ := h2
  refine ⟨le_trans hl1 hl2, ?_⟩
  intro i h
  have hib : (i : Nat) < b.length := lt_of_lt_of_le i.isLt hl1
  obtain ⟨hida, hreva⟩ := hp1 i hib
  obtain ⟨hidb, hrevb⟩ := hp2 ⟨i, hib⟩ h
  refine ⟨hidb.trans hida, ?_⟩
  rcases hrevb with hb1 | hb2
  · rcases hreva with ha1 | ha2
    · exact Or.inl (hb1.trans ha1)
    · exact Or.inr ha2
  · rcases hreva with ha1 | ha2
    · exact Or.inr (ha1 ▸ hb2)
    · exact Or.inr ha2

/-- Every store operation leaves the sessions table equal to a revocation-
style rewrite of the old table, possibly with rows appended. -/
theorem applyOp_sessions_shape (f : String → List Nat) (st : StoreState) (op : Op) :
    ∃ g t, revokeLike g ∧ (applyOp f st op).sessions = st.sessions.map g ++ t := by
  cases op with
  | createUser e p n =>
    refine ⟨id, [], revokeLike_id, ?_⟩
    simp only [applyOp, createUser]
    split <;> simp
  | createSession uid tok exp meta rf n =>
    simp only [applyOp, createSession]
    split
    · exact ⟨id, [], revokeLike_id, by simp⟩
    · split
      · exact ⟨id, [], revokeLike_id, by simp⟩
      · split
        · exact ⟨id, [], revokeLike_id, by simp⟩
        · exact ⟨id, [mkSession st.nextId uid (f tok) exp meta rf n],
            revokeLike_id, by simp⟩
  | rotateRefresh a b c meta n =>
    simp only [applyOp, rotateRefresh]
    split
    · exact ⟨id, [], revokeLike_id, by simp⟩
    · rename_i old hfind
      split
      · exact ⟨id, [], revokeLike_id, by simp⟩
      · split
        · exact ⟨id, [], revokeLike_id, by simp⟩
        · split
          · exact ⟨id, [], revokeLike_id, by simp⟩
          · split
            · exact ⟨id, [], revokeLike_id, by simp⟩
            · split
              · exact ⟨id, [], revokeLike_id, by simp⟩
              · exact ⟨rotUpd old n, [rotNewSession st.nextId old (f b) c meta n],
                  revokeLike_rotUpd old n, rfl⟩
  | revokeSessionByRefresh tok n =>
    simp only [applyOp, revokeSessionByRefresh]
    split
    · exact ⟨id, [], revokeLike_id, by simp⟩
    · exact ⟨revokeUpd (f tok) n, [], revokeLike_revokeUpd (f tok) n, by simp⟩
  | revokeAll uid n =>
    exact ⟨revokeAllUpd uid n, [], revokeLike_revokeAllUpd uid n, by simp [applyOp, revokeAll]⟩

theorem rowsPreserved_applyOp (f : String → List Nat) (st : StoreState) (op : Op) :
    rowsPreserved st.sessions (applyOp f st op).sessions := by
  obtain ⟨g, t, hg, hshape⟩ := applyOp_sessions_shape f st op
  rw [hshape]
  exact rowsPreserved_of_revokeLike _ _ _ hg

/-- C5. `revoked_at` is write-once across every sequence of session-store
operations (`RotateRefresh`, `RevokeSessionByRefresh`, `RevokeAll`, plus
the inserts): rows never disappear, each surviving row keeps its id, and a
row's `revoked_at`, once set, is never cleared or changed — a revoked
session stays revoked forever; an operation changes `revoked_at` only on
rows where it was unset. -/
theorem revokedAt_write_once (f : String → List Nat) (st : StoreState) (l : List Op) :
    rowsPreserved st.sessions (applyOps f st l).sessions := by
  induction l generalizing st with
  | nil =>
    refine ⟨le_refl _, ?_⟩
    intro i h
    exact ⟨rfl, Or.inl rfl⟩
  | cons op rest ih =>
    exact rowsPreserved_trans (rowsPreserved_applyOp f st op)
      (ih (applyOp f st op))

/-- Witness for C5 at a concrete input: a revoked session survives a
`RevokeAll` sweep with its original revocation timestamp. -/
theorem revokedAt_write_once_witness :
    rowsPreserved demoRevokedState.sessions
      (applyOps demoHash demoRevokedState [.revokeAll 0 7]).sessions :=
  revokedAt_write_once demoHash demoRevokedState [.revokeAll 0 7]

/-- C3. `RotateRefresh` decides its failure kind by ordered checks: no row
matching the digest of the old secret fails `ErrRefreshInvalid`; a matched
row with `revoked_at` set fails `ErrRefreshRevoked` (revocation checked
before expiry, so this holds even for an expired revoked row); a matched
unrevoked row whose `expires_at` is not strictly in the future fails
`ErrRefreshExpired`. Each failure leaves the store unchanged (no writes). -/
theorem rotateRefresh_failure_taxonomy (f : String → List Nat) (st : StoreState)
    (oldTok newTok : String) (exp : Int) (meta : SessionMeta) (now : Int) :
    (st.sessions.find? (fun s => decide (s.tokenHash = f oldTok)) = none →
      rotateRefresh f st oldTok newTok exp meta now = (.error .refreshInvalid, st)) ∧
    (∀ s, st.sessions.find? (fun s => decide (s.tokenHash = f oldTok)) = some s →
      s.revokedAt.isSome →
      rotateRefresh f st oldTok newTok exp meta now = (.error .refreshRevoked, st)) ∧
    (∀ s, st.sessions.find? (fun s => decide (s.tokenHash = f oldTok)) = some s →
      s.revokedAt = none → ¬ now < s.expiresAt →
      rotateRefresh f st oldTok newTok exp meta now = (.error .refreshExpired, st)) := by
  refine ⟨?_, ?_, ?_⟩
  · intro hf
    simp only [rotateRefresh, hf]
  · intro s hf hrev
    simp [rotateRefresh, hf, hrev]
  · intro s hf hrev hexp
    simp [rotateRefresh, hf, hrev, hexp]

/-- Witness for C3 at a concrete input: a revoked (and also expired) session
fails `ErrRefreshRevoked` with no writes — revocation wins over expiry. -/
theorem rotateRefresh_failure_taxonomy_witness :
    rotateRefresh demoHash demoRevokedState "old" "new" 200 demoMeta 0 =
      (.error .refreshRevoked, demoRevokedState) :=
  (rotateRefresh_failure_taxonomy demoHash demoRevokedState "old" "new" 200
      demoMeta 0).2.1 demoRevokedSession (by decide) (by decide)

/-- C10. `RevokeSessionByRefresh` (the Logout path) never looks at
`expires_at`: when some unrevoked row matches the digest it returns ok and
sets `revoked_at` on exactly the matching unrevoked rows (even when the
session is already expired), and it returns `ErrRefreshInvalid` exactly when
no unrevoked row matches the digest. -/
theorem revokeSessionByRefresh_no_expiry_check (f : String → List Nat)
    (st : StoreState) (tok : String) (now : Int) :
    ((∃ s ∈ st.sessions, s.tokenHash = f tok ∧ s.revokedAt = none) →
      revokeSessionByRefresh f st tok now =
        (.ok (), { st with sessions := st.sessions.map (revokeUpd (f tok) now) })) ∧
    ((¬ ∃ s ∈ st.sessions, s.tokenHash = f tok ∧ s.revokedAt = none) →
      revokeSessionByRefresh f st tok now = (.error .refreshInvalid, st)) := by
  constructor
  · intro hex
    have hc : st.sessions.countP
        (fun s => decide (s.tokenHash = f tok ∧ s.revokedAt = none)) ≠ 0 := by
      rcases hex with ⟨s, hs, hp⟩
      have hpos : 0 < st.sessions.countP
          (fun s => decide (s.tokenHash = f tok ∧ s.revokedAt = none)) :=
        List.countP_pos_iff.mpr ⟨s, hs, by simpa using hp⟩
      omega
    simp only [revokeSessionByRefresh, if_neg hc]
  · intro hn
    have hc : st.sessions.countP
        (fun s => decide (s.tokenHash = f tok ∧ s.revokedAt = none)) = 0 := by
      rw [List.countP_eq_zero]
      intro a ha
      simp only [decide_eq_true_eq]
      exact fun hp => hn ⟨a, ha, hp⟩
    simp only [revokeSessionByRefresh, if_pos hc]

/-- Witness for C10 at a concrete input: logging out an expired but
unrevoked session succeeds and sets `revoked_at`. -/
theorem revokeSessionByRefresh_no_expiry_check_witness :
    revokeSessionByRefresh demoHash demoExpiredState "old" 0 =
      (.ok (), { demoExpiredState with
        sessions := demoExpiredState.sessions.map (revokeUpd (demoHash "old") 0) }) :=
  (revokeSessionByRefresh_no_expiry_check demoHash demoExpiredState "old" 0).1
    (by decide)

theorem hashUnique_mem_eq {l : List Session}
    (hu : l.Pairwise (fun a b => a.tokenHash ≠ b.tokenHash))
    {s1 s2 : Session} (h1 : s1 ∈ l) (h2 : s2 ∈ l)
    (hh : s1.tokenHash = s2.tokenHash) : s1 = s2 := by
  induction l with
  | nil => cases h1
  | cons a tl ih =>
    rw [List.pairwise_cons] at hu
    rcases List.mem_cons.mp h1 with rfl | h1t
    · rcases List.mem_cons.mp h2 with rfl | h2t
      · rfl
      · exact absurd hh (hu.1 _ h2t)
    · rcases List.mem_cons.mp h2 with rfl | h2t
      · exact absurd hh.symm (hu.1 _ h1t)
      · exact ih hu.2 h1t h2t

theorem hashUnique_applyOp (f : String → List Nat) (st : StoreState) (op : Op)
    (hu : hashUnique st) : hashUnique (applyOp f st op) := by
  unfold hashUnique at *
  cases op with
  | createUser e p n =>
    have hs : (applyOp f st (Op.createUser e p n)).sessions = st.sessions := by
      simp only [applyOp, createUser]
      split <;> rfl
    rw [hs]
    exact hu
  | createSession uid tok exp meta rf n =>
    simp only [applyOp, createSession]
    split
    · exact hu
    · split
      · exact hu
      · split
        · exact hu
        · rename_i hdup _ _
          rw [List.pairwise_append]
          refine ⟨hu, List.pairwise_singleton _ _, ?_⟩
          intro a ha b hb
          simp only [List.mem_singleton] at hb
          subst hb
          intro heq
          exact hdup ⟨a, ha, by simpa [mkSession] using heq⟩
  | rotateRefresh a b c meta n =>
    simp only [applyOp, rotateRefresh]
    split
    · exact hu
    · rename_i old hfind
      split
      · exact hu
      · split
        · exact hu
        · split
          · exact hu
          · split
            · exact hu
            · split
              · exact hu
              · rw [List.pairwise_append]
                have hth : ∀ s, (rotUpd old n s).tokenHash = s.tokenHash :=
                  fun s => ((revokeLike_rotUpd old n) s).2.2.1
                refine ⟨?_, List.pairwise_singleton _ _, ?_⟩
                · rw [List.pairwise_map]
                  exact hu.imp (fun hne => by rw [hth, hth]; exact hne)
                · intro x hx y hy
                  simp only [List.mem_singleton] at hy
                  subst hy
                  intro heq
                  have hex : ∃ s ∈ st.sessions.map (rotUpd old n),
                      s.tokenHash = f b :=
                    ⟨x, hx, by simpa [rotNewSession] using heq⟩
                  exact absurd hex (by assumption)
  | revokeSessionByRefresh tok n =>
    simp only [applyOp, revokeSessionByRefresh]
    split
    · exact hu
    · have hth : ∀ s, (revokeUpd (f tok) n s).tokenHash = s.tokenHash :=
        fun s => ((revokeLike_revokeUpd (f tok) n) s).2.2.1
      rw [List.pairwise_map]
      exact hu.imp (fun hne => by rw [hth, hth]; exact hne)
  | revokeAll uid n =>
    simp only [applyOp, revokeAll]
    have hth : ∀ s, (revokeAllUpd uid n s).tokenHash = s.tokenHash :=
      fun s => ((revokeLike_revokeAllUpd uid n) s).2.2.1
    rw [List.pairwise_map]
    exact hu.imp (fun hne => by rw [hth, hth]; exact hne)

theorem hashUnique_applyOps (f : String → List Nat) (st : StoreState) (l : List Op)
    (hu : hashUnique st) : hashUnique (applyOps f st l) := by
  induction l generalizing st with
  | nil => exact hu
  | cons op rest ih => exact ih (applyOp f st op) (hashUnique_applyOp f st op hu)

theorem revokedForHash_applyOp (f : String → List Nat) (st : StoreState) (op : Op)
    (h : List Nat) (hr : revokedForHash st h) : revokedForHash (applyOp f st op) h := by
  obtain ⟨g, t, hg, hshape⟩ := applyOp_sessions_shape f st op
  obtain ⟨s, hs, hhash, hrev⟩ := hr
  refine ⟨g s, ?_, ?_, ?_⟩
  · rw [hshape]
    exact List.mem_append_left _ (List.mem_map_of_mem g hs)
  · rw [(hg s).2.2.1]
    exact hhash
  · rw [(hg s).2.2.2.2.2.2 hrev]
    exact hrev

theorem revokedForHash_applyOps (f : String → List Nat) (st : StoreState)
    (l : List Op) (h : List Nat) (hr : revokedForHash st h) :
    revokedForHash (applyOps f st l) h := by
  induction l generalizing st with
  | nil => exact hr
  | cons op rest ih => exact ih (applyOp f st op) (revokedForHash_applyOp f st op h hr)

/-- Successful rotation fully characterised: the old row was found by digest,
was unrevoked and unexpired, the owning user was found, and the committed
state revokes the old row and appends the replacement row. -/
theorem rotateRefresh_ok_shape (f : String → List Nat) (st : StoreState)
    (oldTok newTok : String) (exp : Int) (meta : SessionMeta) (now : Int)
    (r : Nat × User) (st1 : StoreState)
    (h : rotateRefresh f st oldTok newTok exp meta now = (.ok r, st1)) :
    ∃ old u, st.sessions.find? (fun x => decide (x.tokenHash = f oldTok)) = some old ∧
      old.revokedAt = none ∧ now < old.expiresAt ∧
      st.users.find? (fun x => decide (x.id = old.userId)) = some u ∧
      r = (st.nextId, u) ∧
      st1 = { st with
        sessions := st.sessions.map (rotUpd old now) ++
          [rotNewSession st.nextId old (f newTok) exp meta now],
        nextId := st.nextId + 1 } := by
  revert h
  simp only [rotateRefresh]
  split
  · intro h; simp at h
  · rename_i old hfind
    split
    · intro h; simp at h
    · rename_i hrev
      split
      · intro h; simp at h
      · rename_i hexp
        split
        · intro h; simp at h
        · split
          · intro h; simp at h
          · split
            · intro h; simp at h
            · rename_i u hufind
              intro h
              rw [Prod.mk.injEq] at h
              obtain ⟨h1, h2⟩ := h
              simp only [Except.ok.injEq] at h1
              exact ⟨old, u, hfind, Option.not_isSome_iff_eq_none.mp hrev,
                not_not.mp hexp, hufind, h1.symm, h2.symm⟩

/-- After a successful rotation the unique row carrying the old digest is
revoked. -/
theorem rotateRefresh_ok_revokedForHash (f : String → List Nat) (st : StoreState)
    (oldTok newTok : String) (exp : Int) (meta : SessionMeta) (now : Int)
    (r : Nat × User) (st1 : StoreState)
    (h : rotateRefresh f st oldTok newTok exp meta now = (.ok r, st1)) :
    revokedForHash st1 (f oldTok) := by
  obtain ⟨old, u, hfind, hrevn, hexp, hufind, hr, hst⟩ :=
    rotateRefresh_ok_shape f st oldTok newTok exp meta now r st1 h
  have hmem : old ∈ st.sessions := List.mem_of_find?_eq_some hfind
  have hhash : old.tokenHash = f oldTok := by
    have := List.find?_some hfind
    simpa using this
  refine ⟨rotUpd old now old, ?_, ?_, ?_⟩
  · rw [hst]
    exact List.mem_append_left _ (List.mem_map_of_mem _ hmem)
  · rw [(revokeLike_rotUpd old now old).2.2.1]
    exact hhash
  · simp [rotUpd, hrevn]

/-- Rotating a secret whose (unique) row is already revoked fails
`ErrRefreshRevoked` with no writes. -/
theorem rotateRefresh_revoked_hash (f : String → List Nat) (st : StoreState)
    (oldTok newTok : String) (exp : Int) (meta : SessionMeta) (now : Int)
    (hu : hashUnique st) (hr : revokedForHash st (f oldTok)) :
    rotateRefresh f st oldTok newTok exp meta now = (.error .refreshRevoked, st) := by
  obtain ⟨s, hs, hhash, hrev⟩ := hr
  cases hfind : st.sessions.find? (fun x => decide (x.tokenHash = f oldTok)) with
  | none =>
    exfalso
    have hnone := List.find?_eq_none.mp hfind s hs
    simp [hhash] at hnone
  | some s1 =>
    have hmem : s1 ∈ st.sessions := List.mem_of_find?_eq_some hfind
    have hp : s1.tokenHash = f oldTok := by
      have := List.find?_some hfind
      simpa using this
    have heq : s1 = s := hashUnique_mem_eq hu hmem hs (hp.trans hhash.symm)
    exact (rotateRefresh_failure_taxonomy f st oldTok newTok exp meta now).2.1 s1 hfind
      (by rw [heq]; exact hrev)

/-- C4. A refresh secret rotates successfully at most once: once
`RotateRefresh` with old secret `oldTok` has succeeded, every later
`RotateRefresh` with the same old secret — after any further sequence of
store operations — fails with `ErrRefreshRevoked` (and performs no writes),
so a rotated refresh token can never be replayed. -/
theorem rotate_at_most_once (f : String → List Nat) (st : StoreState)
    (oldTok newTok : String) (exp : Int) (meta : SessionMeta) (now : Int)
    (hu : hashUnique st) (r : Nat × User) (st1 : StoreState)
    (h : rotateRefresh f st oldTok newTok exp meta now = (.ok r, st1))
    (l : List Op) (newTok2 : String) (exp2 : Int) (meta2 : SessionMeta) (now2 : Int) :
    rotateRefresh f (applyOps f st1 l) oldTok newTok2 exp2 meta2 now2 =
      (.error .refreshRevoked, applyOps f st1 l) := by
  have hst1 : st1 = applyOp f st (Op.rotateRefresh oldTok newTok exp meta now) := by
    simp only [applyOp, h]
  have hu1 : hashUnique st1 := by
    rw [hst1]
    exact hashUnique_applyOp f st _ hu
  have hr1 : revokedForHash st1 (f oldTok) :=
    rotateRefresh_ok_revokedForHash f st oldTok newTok exp meta now r st1 h
  exact rotateRefresh_revoked_hash f (applyOps f st1 l) oldTok newTok2 exp2 meta2 now2
    (hashUnique_applyOps f st1 l hu1)
    (revokedForHash_applyOps f st1 l (f oldTok) hr1)

theorem rotateBatch_all_revoked (f : String → List Nat) (meta : SessionMeta)
    (oldTok : String) (calls : List (String × Int × Int)) (st : StoreState)
    (hu : hashUnique st) (hr : revokedForHash st (f oldTok)) :
    rotateBatch f meta st oldTok calls =
      (calls.map (fun _ => .error .refreshRevoked), st) := by
  induction calls generalizing st with
  | nil => rfl
  | cons c rest ih =>
    have h1 := rotateRefresh_revoked_hash f st oldTok c.1 c.2.1 meta c.2.2 hu hr
    simp only [rotateBatch, h1]
    rw [ih st hu hr]
    simp

/-- C1. K concurrent `RotateRefresh` calls against the same valid secret
(modelled as K atomic transactions run in sequence, in any order of callers):
the first transaction to run succeeds, all K−1 others fail with
`ErrRefreshRevoked`, and afterwards exactly one new session row exists — the
table gains exactly one row, the appended replacement, whose `rotated_from`
points at the original session. Never both succeed and never does the
original stay unrevoked. -/
theorem concurrent_rotate_exactly_one_success (f : String → List Nat)
    (meta : SessionMeta) (st : StoreState) (oldTok : String)
    (c1 : String × Int × Int) (rest : List (String × Int × Int))
    (hu : hashUnique st) (orig : Session) (horig : orig ∈ st.sessions)
    (hhash : orig.tokenHash = f oldTok) (hrevn : orig.revokedAt = none)
    (hexp : c1.2.2 < orig.expiresAt)
    (hfresh : ¬ ∃ s ∈ st.sessions, s.tokenHash = f c1.1)
    (huser : ∃ u ∈ st.users, u.id = orig.userId) :
    ∃ u, rotateBatch f meta st oldTok (c1 :: rest) =
      (.ok (st.nextId, u) :: rest.map (fun _ => .error .refreshRevoked),
       { st with
         sessions := (st.sessions.map (rotUpd orig c1.2.2) ++
           [rotNewSession st.nextId orig (f c1.1) c1.2.1 meta c1.2.2]),
         nextId := st.nextId + 1 }) ∧
      (rotateBatch f meta st oldTok (c1 :: rest)).2.sessions.length =
        st.sessions.length + 1 ∧
      (rotateBatch f meta st oldTok (c1 :: rest)).2.sessions.getLast? =
        some (rotNewSession st.nextId orig (f c1.1) c1.2.1 meta c1.2.2) ∧
      (rotNewSession st.nextId orig (f c1.1) c1.2.1 meta c1.2.2).rotatedFrom =
        some orig.id := by
  -- the FOR UPDATE lookup finds exactly the original row
  have hfindsome : (st.sessions.find? (fun x => decide (x.tokenHash = f oldTok))).isSome :=
    List.find?_isSome.mpr ⟨orig, horig, by simp [hhash]⟩
  obtain ⟨s1, hfind⟩ := Option.isSome_iff_exists.mp hfindsome
  have hmem : s1 ∈ st.sessions := List.mem_of_find?_eq_some hfind
  have hp : s1.tokenHash = f oldTok := by
    have := List.find?_some hfind
    simpa using this
  have hs1 : s1 = orig := hashUnique_mem_eq hu hmem horig (hp.trans hhash.symm)
  subst hs1
  -- the owning user is found
  have hufindsome : (st.users.find? (fun x => decide (x.id = s1.userId))).isSome := by
    obtain ⟨u, humem, huid⟩ := huser
    exact List.find?_isSome.mpr ⟨u, humem, by simp [huid]⟩
  obtain ⟨u0, hufind⟩ := Option.isSome_iff_exists.mp hufindsome
  -- the fresh digest does not collide after the revocation rewrite
  have hdup : ∀ x ∈ st.sessions, ¬ (rotUpd s1 c1.2.2 x).tokenHash = f c1.1 := by
    intro x hx hcon
    exact hfresh ⟨x, hx, by rwa [(revokeLike_rotUpd s1 c1.2.2 x).2.2.1] at hcon⟩
  -- the first transaction commits
  have hok : rotateRefresh f st oldTok c1.1 c1.2.1 meta c1.2.2 =
      (.ok (st.nextId, u0),
       { st with
         sessions := (st.sessions.map (rotUpd s1 c1.2.2) ++
           [rotNewSession st.nextId s1 (f c1.1) c1.2.1 meta c1.2.2]),
         nextId := st.nextId + 1 }) := by
    simp [rotateRefresh, hfind, hufind, hrevn, hexp, huser]
    exact hdup
  -- every later transaction sees the committed revocation
  have hst1 : { st with
      sessions := (st.sessions.map (rotUpd s1 c1.2.2) ++
        [rotNewSession st.nextId s1 (f c1.1) c1.2.1 meta c1.2.2]),
      nextId := st.nextId + 1 } =
      applyOp f st (Op.rotateRefresh oldTok c1.1 c1.2.1 meta c1.2.2) := by
    simp only [applyOp, hok]
  have hu1 : hashUnique { st with
      sessions := (st.sessions.map (rotUpd s1 c1.2.2) ++
        [rotNewSession st.nextId s1 (f c1.1) c1.2.1 meta c1.2.2]),
      nextId := st.nextId + 1 } := by
    rw [hst1]
    exact hashUnique_applyOp f st _ hu
  have hr1 : revokedForHash { st with
      sessions := (st.sessions.map (rotUpd s1 c1.2.2) ++
        [rotNewSession st.nextId s1 (f c1.1) c1.2.1 meta c1.2.2]),
      nextId := st.nextId + 1 } (f oldTok) :=
    rotateRefresh_ok_revokedForHash f st oldTok c1.1 c1.2.1 meta c1.2.2 _ _ hok
  have hbatch : rotateBatch f meta st oldTok (c1 :: rest) =
      (.ok (st.nextId, u0) :: rest.map (fun _ => .error .refreshRevoked),
       { st with
         sessions := (st.sessions.map (rotUpd s1 c1.2.2) ++
           [rotNewSession st.nextId s1 (f c1.1) c1.2.1 meta c1.2.2]),
         nextId := st.nextId + 1 }) := by
    simp only [rotateBatch, hok]
    rw [rotateBatch_all_revoked f meta oldTok rest _ hu1 hr1]
  refine ⟨u0, hbatch, ?_, ?_, rfl⟩
  · rw [hbatch]
    simp
  · rw [hbatch]
    simp only [List.getLast?_concat]

/-- Witness for C1 at a concrete input: three concurrent rotations of "old";
the first succeeds, the other two fail `ErrRefreshRevoked`, one row is
added, and it points back at the original session. -/
theorem concurrent_rotate_exactly_one_success_witness :
    ∃ u, rotateBatch demoHash demoMeta demoState "old"
        [("new", 200, 0), ("n2", 201, 0), ("n3", 202, 0)] =
      (.ok (demoState.nextId, u) ::
        List.map (fun _ => .error .refreshRevoked) [("n2", 201, 0), ("n3", 202, 0)],
       { demoState with
         sessions := (demoState.sessions.map (rotUpd demoSession 0) ++
           [rotNewSession demoState.nextId demoSession (demoHash "new") 200 demoMeta 0]),
         nextId := demoState.nextId + 1 }) ∧
      (rotateBatch demoHash demoMeta demoState "old"
        [("new", 200, 0), ("n2", 201, 0), ("n3", 202, 0)]).2.sessions.length =
        demoState.sessions.length + 1 ∧
      (rotateBatch demoHash demoMeta demoState "old"
        [("new", 200, 0), ("n2", 201, 0), ("n3", 202, 0)]).2.sessions.getLast? =
        some (rotNewSession demoState.nextId demoSession (demoHash "new") 200 demoMeta 0) ∧
      (rotNewSession demoState.nextId demoSession (demoHash "new") 200 demoMeta 0).rotatedFrom =
        some demoSession.id :=
  concurrent_rotate_exactly_one_success demoHash demoMeta demoState "old"
    ("new", 200, 0) [("n2", 201, 0), ("n3", 202, 0)]
    (by simp [hashUnique, demoState]) demoSession (by simp [demoState])
    (by decide) (by decide) (by decide) (by decide) (by decide)

/-- Witness for C4 at a concrete input: after successfully rotating "old"
to "new", replaying "old" (even after a further operation) fails with
`ErrRefreshRevoked`. -/
theorem rotate_at_most_once_witness :
    rotateRefresh demoHash
      (applyOps demoHash (rotateRefresh demoHash demoState "old" "new" 200 demoMeta 0).2
        [.revokeAll 5 9])
      "old" "new2" 300 demoMeta 1 =
    (.error .refreshRevoked,
      applyOps demoHash (rotateRefresh demoHash demoState "old" "new" 200 demoMeta 0).2
        [.revokeAll 5 9]) :=
  rotate_at_most_once demoHash demoState "old" "new" 200 demoMeta 0
    (by simp [hashUnique, demoState]) ((2 : Nat), demoUser)
    (rotateRefresh demoHash demoState "old" "new" 200 demoMeta 0).2 (by decide)
    [.revokeAll 5 9] "new2" 300 demoMeta 1

/-- C9 counterexample: the claim quantifies over all session-store
operations, but `CreateSession` accepts an arbitrary `rotated_from`, so a
state violating the invariant is reachable through store operations alone:
register a user, open a session, then call `CreateSession` with
`rotated_from` pointing at the (unrevoked) open session. -/
theorem rotatedFrom_claim_counterexample :
    ¬ rotatedFromRevoked (applyOps demoHash StoreState.init
      [.createUser "a@b.com" "h" 0,
       .createSession 0 "t1" 100 demoMeta none 0,
       .createSession 0 "t2" 100 demoMeta (some 1) 0]) := by
  unfold rotatedFromRevoked
  decide

theorem rotatedFromRevoked_applyOp (f : String → List Nat) (st : StoreState)
    (op : Op) (hop : loginStyle op) (hinv : rotatedFromRevoked st) :
    rotatedFromRevoked (applyOp f st op) := by
  unfold rotatedFromRevoked at hinv ⊢
  cases op with
  | createUser e p n =>
    have hs : (applyOp f st (Op.createUser e p n)).sessions = st.sessions := by
      simp only [applyOp, createUser]
      split <;> rfl
    rw [hs]
    exact hinv
  | createSession uid tok exp meta rf n =>
    have hrf : rf = none := hop
    subst hrf
    simp only [applyOp, createSession]
    split
    · exact hinv
    · split
      · exact hinv
      · split
        · exact hinv
        · intro s hs rid hrid
          rcases List.mem_append.mp hs with hs1 | hs2
          · obtain ⟨p, hpmem, hpid, hprev⟩ := hinv s hs1 rid hrid
            exact ⟨p, List.mem_append_left _ hpmem, hpid, hprev⟩
          · simp only [List.mem_singleton] at hs2
            subst hs2
            simp [mkSession] at hrid
  | rotateRefresh a b c meta n =>
    rcases hres : rotateRefresh f st a b c meta n with ⟨res, st1⟩
    have happ : applyOp f st (Op.rotateRefresh a b c meta n) = st1 := by
      simp only [applyOp, hres]
    rw [happ]
    cases res with
    | error e =>
      have h1 : (rotateRefresh f st a b c meta n).1 = .error e := by rw [hres]
      have h2 := rotateRefresh_error_rolls_back f st a b c meta n e h1
      rw [hres] at h2
      simp only at h2
      rw [h2]
      exact hinv
    | ok r =>
      obtain ⟨old, u, hfind, hrevn, hexp, hufind, hr, hst⟩ :=
        rotateRefresh_ok_shape f st a b c meta n r st1 hres
      subst hst
      intro s hs rid hrid
      rcases List.mem_append.mp hs with hs1 | hs2
      · obtain ⟨x, hx, rfl⟩ := List.mem_map.mp hs1
        have hrot : (rotUpd old n x).rotatedFrom = x.rotatedFrom :=
          (revokeLike_rotUpd old n x).2.2.2.2.1
        rw [hrot] at hrid
        obtain ⟨p, hpmem, hpid, hprev⟩ := hinv x hx rid hrid
        refine ⟨rotUpd old n p,
          List.mem_append_left _ (List.mem_map_of_mem _ hpmem), ?_, ?_⟩
        · rw [(revokeLike_rotUpd old n p).1]
          exact hpid
        · rw [(revokeLike_rotUpd old n p).2.2.2.2.2.2 hprev]
          exact hprev
      · simp only [List.mem_singleton] at hs2
        subst hs2
        have hridv : old.id = rid := by simpa [rotNewSession] using hrid
        subst hridv
        refine ⟨rotUpd old n old,
          List.mem_append_left _
            (List.mem_map_of_mem _ (List.mem_of_find?_eq_some hfind)), ?_, ?_⟩
        · rw [(revokeLike_rotUpd old n old).1]
        · simp [rotUpd, hrevn]
  | revokeSessionByRefresh tok n =>
    simp only [applyOp, revokeSessionByRefresh]
    split
    · exact hinv
    · intro s hs rid hrid
      obtain ⟨x, hx, rfl⟩ := List.mem_map.mp hs
      have hrot : (revokeUpd (f tok) n x).rotatedFrom = x.rotatedFrom :=
        (revokeLike_revokeUpd (f tok) n x).2.2.2.2.1
      rw [hrot] at hrid
      obtain ⟨p, hpmem, hpid, hprev⟩ := hinv x hx rid hrid
      refine ⟨revokeUpd (f tok) n p, List.mem_map_of_mem _ hpmem, ?_, ?_⟩
      · rw [(revokeLike_revokeUpd (f tok) n p).1]
        exact hpid
      · rw [(revokeLike_revokeUpd (f tok) n p).2.2.2.2.2.2 hprev]
        exact hprev
  | revokeAll uid n =>
    simp only [applyOp, revokeAll]
    intro s hs rid hrid
    obtain ⟨x, hx, rfl⟩ := List.mem_map.mp hs
    have hrot : (revokeAllUpd uid n x).rotatedFrom = x.rotatedFrom :=
      (revokeLike_revokeAllUpd uid n x).2.2.2.2.1
    rw [hrot] at hrid
    obtain ⟨p, hpmem, hpid, hprev⟩ := hinv x hx rid hrid
    refine ⟨revokeAllUpd uid n p, List.mem_map_of_mem _ hpmem, ?_, ?_⟩
    · rw [(revokeLike_revokeAllUpd uid n p).1]
      exact hpid
    · rw [(revokeLike_revokeAllUpd uid n p).2.2.2.2.2.2 hprev]
      exact hprev

/-- C9 (amended). When sessions are created only the way the facade creates
them — `CreateSession` without a `rotated_from` argument (Login), with rows
carrying `rotated_from` produced only inside `RotateRefresh` — every state
reachable from the empty store satisfies the lineage invariant: a session
whose `rotated_from` is set references a session whose `revoked_at` is set;
a session is only created as the product of revoking its predecessor. -/
theorem rotatedFrom_references_revoked (f : String → List Nat) (l : List Op)
    (hl : ∀ op ∈ l, loginStyle op) :
    rotatedFromRevoked (applyOps f StoreState.init l) := by
  have main : ∀ (l : List Op) (st : StoreState), (∀ op ∈ l, loginStyle op) →
      rotatedFromRevoked st → rotatedFromRevoked (applyOps f st l) := by
    intro l
    induction l with
    | nil => intro st _ hinv; exact hinv
    | cons op rest ih =>
      intro st hl hinv
      exact ih (applyOp f st op) (fun x hx => hl x (List.mem_cons_of_mem op hx))
        (rotatedFromRevoked_applyOp f st op (hl op (List.mem_cons_self op rest)) hinv)
  exact main l StoreState.init hl (by intro s hs; cases hs)

/-- Witness for C9 (amended) at a concrete input: register, login, rotate —
the rotated row's `rotated_from` points at the revoked original. -/
theorem rotatedFrom_references_revoked_witness :
    rotatedFromRevoked (applyOps demoHash StoreState.init
      [.createUser "a@b.com" "h" 0,
       .createSession 0 "t1" 100 demoMeta none 0,
       .rotateRefresh "t1" "t2" 150 demoMeta 1]) :=
  rotatedFrom_references_revoked demoHash
    [.createUser "a@b.com" "h" 0,
     .createSession 0 "t1" 100 demoMeta none 0,
     .rotateRefresh "t1" "t2" 150 demoMeta 1]
    (by decide)

/-- C8 counterexample: `Register` does not detect the uniqueness conflict
through a typed signal — it inspects driver-specific error text. A
non-conflict driver error whose message happens to contain "duplicate"
(Postgres reports e.g. duplicate prepared statements this way) is mapped to
already-exists, while the typed detection the spec prescribes maps it to
internal; so the code's mapping is not a function of the typed kind. -/
theorem register_conflict_detection_counterexample :
    registerCreateUserErrOutcome
        { kind := .otherFault, msg := "ERROR: duplicate prepared statement" } =
      .alreadyExists ∧
    typedConflictOutcome
        { kind := .otherFault, msg := "ERROR: duplicate prepared statement" } =
      .internalError ∧
    registerCreateUserErrOutcome
        { kind := .otherFault, msg := "ERROR: duplicate prepared statement" } ≠
      typedConflictOutcome
        { kind := .otherFault, msg := "ERROR: duplicate prepared statement" } := by
  decide

/-- C8 (amended). `Register` maps a `CreateUser` failure to "already exists"
exactly when the lowercased driver error text contains "unique" or
"duplicate" — string inspection of the driver message, not the typed
conflict signal the spec prescribes (the spec's own design notes flag this
for replacement). The genuine Postgres unique-violation message does contain
"unique", so real email conflicts do surface as already-exists. -/
theorem register_conflict_detection_by_text (err : PgError) :
    registerCreateUserErrOutcome err = .alreadyExists ↔
      (containsSub "unique".data (lowerChars err.msg) ||
       containsSub "duplicate".data (lowerChars err.msg)) := by
  unfold registerCreateUserErrOutcome
  split <;> simp_all

/-- Witness for C8 (amended) at a concrete input: the real Postgres
unique-violation text maps to already-exists. -/
theorem register_conflict_detection_by_text_witness :
    registerCreateUserErrOutcome
      { kind := .uniqueViolation,
        msg := "ERROR: duplicate key value violates unique constraint (SQLSTATE 23505)" } =
    .alreadyExists :=
  (register_conflict_detection_by_text
      { kind := .uniqueViolation,
        msg := "ERROR: duplicate key value violates unique constraint (SQLSTATE 23505)" }).mpr
    (by decide)

/-- C7. `Parse` accepts only tokens that decode, whose header algorithm is
exactly the configured HS256, whose signature is the MAC under the
configured key, whose expiry (when present) is strictly in the future, and
whose issuer equals the configured issuer — and every failure, of any kind,
is the single error `ErrInvalidToken`. -/
theorem parse_enforces_alg_key_issuer_expiry
    (mac : List Nat → String → Claims → List Nat) (svc : JwtService)
    (tok? : Option JwtToken) (now : Int) :
    (∀ claims, JwtService.parse mac svc tok? now = .ok claims →
      ∃ tok, tok? = some tok ∧ tok.alg = "HS256" ∧
        tok.sig = mac svc.secret "HS256" tok.claims ∧
        (∀ e ∈ tok.claims.expiresAt, now < e) ∧
        tok.claims.issuer = svc.issuer ∧ claims = tok.claims) ∧
    (∀ e, JwtService.parse mac svc tok? now = .error e → e = .invalidToken) := by
  constructor
  · intro claims h
    cases tok? with
    | none => simp [JwtService.parse, parseWithClaims] at h
    | some tok =>
      by_cases halg : tok.alg = "HS256"
      · by_cases hsig : tok.sig = mac svc.secret "HS256" tok.claims
        · by_cases hexp : ∃ e, tok.claims.expiresAt = some e ∧ e ≤ now
          · simp [JwtService.parse, parseWithClaims, halg, hsig, hexp] at h
          · by_cases hiat : ∃ i, tok.claims.issuedAt = some i ∧ now < i
            · simp [JwtService.parse, parseWithClaims, halg, hsig, hexp, hiat] at h
            · by_cases hiss : tok.claims.issuer = svc.issuer
              · refine ⟨tok, rfl, halg, hsig, ?_, hiss, ?_⟩
                · intro e he
                  by_contra hlt
                  exact hexp ⟨e, Option.mem_def.mp he, not_lt.mp hlt⟩
                · simp [JwtService.parse, parseWithClaims, halg, hsig, hexp,
                    hiat, hiss] at h
                  exact h.symm
              · simp [JwtService.parse, parseWithClaims, halg, hsig, hexp,
                  hiat, hiss] at h
        · simp [JwtService.parse, parseWithClaims, halg, hsig] at h
      · simp [JwtService.parse, parseWithClaims, halg] at h
  · intro e _
    cases e
    rfl

/-- Witness for C7 at a concrete input: a token minted by the service at
time 0 parses at time 5, and the theorem yields its acceptance conditions. -/
theorem parse_enforces_alg_key_issuer_expiry_witness :
    ∃ tok, (some demoAccessToken : Option JwtToken) = some tok ∧
      tok.alg = "HS256" ∧
      tok.sig = demoMac demoJwtService.secret "HS256" tok.claims ∧
      (∀ e ∈ tok.claims.expiresAt, (5 : Int) < e) ∧
      tok.claims.issuer = demoJwtService.issuer ∧
      demoAccessToken.claims = tok.claims :=
  (parse_enforces_alg_key_issuer_expiry demoMac demoJwtService
      (some demoAccessToken) 5).1 demoAccessToken.claims (by decide)

namespace Password

theorem charSextet_sextetChar (v : Nat) (h : v < 64) :
    charSextet (sextetChar v) = some v := by
  have hall : ∀ i : Fin 64, charSextet (sextetChar i.1) = some i.1 := by decide
  exact hall ⟨v, h⟩

theorem sextetChar_ne_dollar (v : Nat) (h : v < 64) : sextetChar v ≠ '$' := by
  have hall : ∀ i : Fin 64, sextetChar i.1 ≠ '$' := by decide
  exact hall ⟨v, h⟩

theorem b64_roundtrip : ∀ (l : List Nat), (∀ x ∈ l, x < 256) →
    b64decodeChars (b64encode l) = some l
  | [], _ => rfl
  | [a], h => by
    have ha : a < 256 := h a (by simp)
    have e1 := charSextet_sextetChar (a / 4) (by omega)
    have e2 := charSextet_sextetChar ((a % 4) * 16) (by omega)
    simp [b64encode, b64decodeChars, e1, e2]
    omega
  | [a, b], h => by
    have ha : a < 256 := h a (by simp)
    have hb : b < 256 := h b (by simp)
    have e1 := charSextet_sextetChar (a / 4) (by omega)
    have e2 := charSextet_sextetChar ((a % 4) * 16 + b / 16) (by omega)
    have e3 := charSextet_sextetChar ((b % 16) * 4) (by omega)
    simp [b64encode, b64decodeChars, e1, e2, e3]
    omega
  | a :: b :: c :: rest, h => by
    have ha : a < 256 := h a (by simp)
    have hb : b < 256 := h b (by simp)
    have hc : c < 256 := h c (by simp)
    have ih := b64_roundtrip rest (fun x hx => h x (by simp [hx]))
    have e1 := charSextet_sextetChar (a / 4) (by omega)
    have e2 := charSextet_sextetChar ((a % 4) * 16 + b / 16) (by omega)
    have e3 := charSextet_sextetChar ((b % 16) * 4 + c / 64) (by omega)
    have e4 := charSextet_sextetChar (c % 64) (by omega)
    simp [b64encode, b64decodeChars, e1, e2, e3, e4, ih]
    omega

theorem dollar_not_mem_b64encode : ∀ (l : List Nat), (∀ x ∈ l, x < 256) →
    '$' ∉ b64encode l
  | [], _ => by simp [b64encode]
  | [a], h => by
    have ha : a < 256 := h a (by simp)
    simp only [b64encode, List.mem_cons, List.not_mem_nil, or_false]
    push_neg
    exact ⟨fun hc => sextetChar_ne_dollar _ (by omega) hc.symm,
      fun hc => sextetChar_ne_dollar _ (by omega) hc.symm⟩
  | [a, b], h => by
    have ha : a < 256 := h a (by simp)
    have hb : b < 256 := h b (by simp)
    simp only [b64encode, List.mem_cons, List.not_mem_nil, or_false]
    push_neg
    exact ⟨fun hc => sextetChar_ne_dollar _ (by omega) hc.symm,
      fun hc => sextetChar_ne_dollar _ (by omega) hc.symm,
      fun hc => sextetChar_ne_dollar _ (by omega) hc.symm⟩
  | a :: b :: c :: rest, h => by
    have ha : a < 256 := h a (by simp)
    have hb : b < 256 := h b (by simp)
    have hc : c < 256 := h c (by simp)
    have ih := dollar_not_mem_b64encode rest (fun x hx => h x (by simp [hx]))
    simp only [b64encode, List.mem_cons]
    push_neg
    exact ⟨fun hcon => sextetChar_ne_dollar _ (by omega) hcon.symm,
      fun hcon => sextetChar_ne_dollar _ (by omega) hcon.symm,
      fun hcon => sextetChar_ne_dollar _ (by omega) hcon.symm,
      fun hcon => sextetChar_ne_dollar _ (by omega) hcon.symm, ih⟩

theorem splitD_cons_dollar (rest : List Char) :
    splitD ('$' :: rest) = [] :: splitD rest := by
  simp [splitD]

theorem splitD_append_noDollar : ∀ (xs rest : List Char), '$' ∉ xs →
    splitD (xs ++ '$' :: rest) = xs :: splitD rest
  | [], rest, _ => by simp [splitD_cons_dollar]
  | c :: xs, rest, h => by
    have hc : c ≠ '$' := fun hcc => h (by simp [hcc])
    have ih := splitD_append_noDollar xs rest (fun hm => h (List.mem_cons_of_mem _ hm))
    simp only [List.cons_append, splitD, List.append_eq]
    rw [if_neg hc, ih]

theorem splitD_noDollar : ∀ (xs : List Char), '$' ∉ xs → splitD xs = [xs]
  | [], _ => rfl
  | c :: xs, h => by
    have hc : c ≠ '$' := fun hcc => h (by simp [hcc])
    have ih := splitD_noDollar xs (fun hm => h (List.mem_cons_of_mem _ hm))
    simp only [splitD]
    rw [if_neg hc, ih]

theorem splitD_joinDollar : ∀ (fs : List (List Char)), fs ≠ [] →
    (∀ f ∈ fs, '$' ∉ f) → splitD (joinDollar fs) = fs
  | [], hne, _ => absurd rfl hne
  | [x], _, h => splitD_noDollar x (h x (by simp))
  | x :: y :: rest, _, h => by
    have ih := splitD_joinDollar (y :: rest) (by simp)
      (fun f hf => h f (List.mem_cons_of_mem _ hf))
    simp only [joinDollar]
    rw [splitD_append_noDollar _ _ (h x (by simp)), ih]

theorem splitD_hashEncoded
    (idKey : List Nat → List Nat → Nat → Nat → Nat → Nat → List Nat)
    (pw salt : List Nat) (hsalt : ∀ x ∈ salt, x < 256)
    (hhash : ∀ x ∈ idKey pw salt timeCost memoryKiB threads keyLen, x < 256) :
    splitD (hashEncoded idKey pw salt) =
      [[], "argon2id".data,
       'v' :: '=' :: natDigits argon2Version,
       'm' :: '=' :: natDigits memoryKiB ++
         ',' :: 't' :: '=' :: natDigits timeCost ++
         ',' :: 'p' :: '=' :: natDigits threads,
       b64encode salt,
       b64encode (idKey pw salt timeCost memoryKiB threads keyLen)] := by
  simp only [hashEncoded]
  rw [splitD_cons_dollar]
  rw [splitD_joinDollar _ (by simp) ?_]
  intro f hf
  simp only [List.mem_cons, List.not_mem_nil, or_false] at hf
  rcases hf with rfl | rfl | rfl | rfl | rfl
  · decide
  · decide
  · decide
  · exact dollar_not_mem_b64encode salt hsalt
  · exact dollar_not_mem_b64encode _ hhash

theorem parse_hashEncoded
    (idKey : List Nat → List Nat → Nat → Nat → Nat → Nat → List Nat)
    (pw salt : List Nat) (hsaltlen : salt.length = saltLen)
    (hsalt : ∀ x ∈ salt, x < 256)
    (hhashlen : (idKey pw salt timeCost memoryKiB threads keyLen).length = keyLen)
    (hhash : ∀ x ∈ idKey pw salt timeCost memoryKiB threads keyLen, x < 256) :
    parse (hashEncoded idKey pw salt) =
      some (ParsedHash.mk memoryKiB timeCost threads salt
        (idKey pw salt timeCost memoryKiB threads keyLen)) := by
  have hv : scanVersion ('v' :: '=' :: natDigits argon2Version) =
      some (argon2Version : Int) := by decide
  have hpm : scanParams ('m' :: '=' :: natDigits memoryKiB ++
      ',' :: 't' :: '=' :: natDigits timeCost ++
      ',' :: 'p' :: '=' :: natDigits threads) =
      some ((memoryKiB : Int), (timeCost : Int), (threads : Int)) := by decide
  have hds := b64_roundtrip salt hsalt
  have hdh := b64_roundtrip _ hhash
  simp only [parse, splitD_hashEncoded idKey pw salt hsalt hhash, hv, hpm, hds, hdh]
  rw [if_neg (by decide)]
  rw [if_neg (by decide)]
  rw [if_neg (by rw [hsaltlen]; decide)]
  rw [if_neg (by rw [hhashlen]; decide)]
  simp [intToUInt32, intToUInt8, memoryKiB, timeCost, threads]

/-- C6. For every non-empty password `p` and well-formed random salt,
`Hash` succeeds and `Verify(p, Hash(p))` succeeds; and for any password
`p2` whose argon2id key under the embedded parameters differs from `p`'s
(any `p2 ≠ p`, absent an argon2id collision), `Verify(p2, Hash(p))` fails
with `ErrMismatch`. `idKey` abstracts `argon2.IDKey`; the two length/byte
hypotheses state what the real primitive guarantees (a `keyLen`-byte
output). -/
theorem password_hash_verify
    (idKey : List Nat → List Nat → Nat → Nat → Nat → Nat → List Nat)
    (p salt : List Nat) (hp : p ≠ [])
    (hsaltlen : salt.length = saltLen) (hsaltbytes : ∀ x ∈ salt, x < 256)
    (hhashlen : (idKey p salt timeCost memoryKiB threads keyLen).length = keyLen)
    (hhashbytes : ∀ x ∈ idKey p salt timeCost memoryKiB threads keyLen, x < 256) :
    ∃ encoded, Hash idKey p salt = .ok encoded ∧
      Verify idKey p encoded = .ok () ∧
      ∀ p2, idKey p2 salt timeCost memoryKiB threads keyLen ≠
          idKey p salt timeCost memoryKiB threads keyLen →
        Verify idKey p2 encoded = .error .mismatch := by
  refine ⟨hashEncoded idKey p salt, ?_, ?_, ?_⟩
  · unfold Hash
    rw [if_neg hp]
  · unfold Verify
    rw [parse_hashEncoded idKey p salt hsaltlen hsaltbytes hhashlen hhashbytes]
    simp [constantTimeCompare, hhashlen]
  · intro p2 hne
    unfold Verify
    rw [parse_hashEncoded idKey p salt hsaltlen hsaltbytes hhashlen hhashbytes]
    simp [constantTimeCompare, hhashlen, hne]

/-- Witness for C6 at a concrete input: password `[1]`, a 16-byte zero
salt, and the concrete argon2id stand-in; `[2]` fails with `ErrMismatch`. -/
theorem password_hash_verify_witness :
    ∃ encoded, Hash demoIdKey [1] (List.replicate 16 0) = .ok encoded ∧
      Verify demoIdKey [1] encoded = .ok () ∧
      Verify demoIdKey [2] encoded = .error .mismatch := by
  obtain ⟨enc, h1, h2, h3⟩ := password_hash_verify demoIdKey [1] (List.replicate 16 0)
    (by decide) (by decide) (by decide) (by decide) (by decide)
  exact ⟨enc, h1, h2, h3 [2] (by decide)⟩

end Password

end AuthCore
